import Mathlib

/-!
Verification development for the cp-assignments lab scripts.

The repository hands constraint models to an external CP engine; the
self-authored parts are the custom decision builders (lotsizing.py), the
LNS drivers (wt.py, shiftsched_lns.py) and the small helper functions
around them.  This file shallowly embeds those parts and proves (or
refutes) the properties claimed about them.

Conventions:
* Python lists of ints become `List Int` / `List Nat`.
* `rand.randint(0, hi)` is modelled by an abstract stream
  `rand : Nat → Nat → Nat`: `rand t hi` is the reply to the `t`-th call
  with upper bound `hi`.  The reply is clamped with `min _ hi`, which is
  the identity whenever the stream honours `randint`'s contract.
* Python 2 peculiarities (comparison of lists, comparison with `None`)
  are embedded explicitly where a claim depends on them.
-/

namespace CP

/-! ## Shared helpers: Python 2 semantics -/

/-- Python 2 `<` on two lists of ints: lexicographic, a strict prefix is
smaller than the longer list. -/
def pyListLt : List Int → List Int → Bool
  | [], [] => false
  | [], _ :: _ => true
  | _ :: _, [] => false
  | a :: as, b :: bs =>
      if a < b then true
      else if b < a then false
      else pyListLt as bs

/-- Python 2 `x > y` where `x` is an int and `y` is either an int or
`None`: `None` compares smaller than every int, so `x > None` is `True`. -/
def pyGtOptInt (x : Int) : Option Int → Bool
  | none => true
  | some y => decide (y < x)

/-! ## `random_draw` (wt.py lines 160-167, shiftsched_lns.py lines 12-18)

Both files define the same `while len(R) < size and len(L) > 0` loop:
draw a random index of `L`, append the element to `R`, pop it from `L`.
The wt.py version first rebinds `L` to a copy (`L = [v for v in L]`), so
the pops apply to the copy only; the shiftsched_lns.py version pops from
the caller's list.  `draw_loop` is the shared loop, returning the pair
(drawn elements, what is left of the list the loop popped from). -/

def draw_loop {α : Type} (rand : Nat → Nat → Nat) :
    Nat → Nat → List α → List α × List α
  | _, 0, L => ([], L)
  | _, _ + 1, [] => ([], [])
  | t, size + 1, x :: xs =>
      let idx := min (rand t xs.length) xs.length
      let chosen := (x :: xs).getD idx x
      let rest := draw_loop rand (t + 1) size ((x :: xs).eraseIdx idx)
      (chosen :: rest.1, rest.2)

/-- `random_draw` from wt.py: the result list only (the input is copied,
so the caller's list is untouched). -/
def wt_random_draw {α : Type} (L : List α) (size : Nat)
    (rand : Nat → Nat → Nat) : List α :=
  (draw_loop rand 0 size L).1

/-- `random_draw` from wt.py viewed as a state transformer on the
caller's list: line 161 (`L = [v for v in L]`) rebinds `L` to a copy, so
the `pop` calls mutate the copy and the caller's list is returned
unchanged. -/
def wt_random_draw_st {α : Type} (L : List α) (size : Nat)
    (rand : Nat → Nat → Nat) : List α × List α :=
  ((draw_loop rand 0 size L).1, L)

/-- `random_draw` from shiftsched_lns.py as a state transformer on the
caller's list: the loop pops directly from the argument, so the second
component is what remains of the caller's list after the call. -/
def shift_random_draw {α : Type} (L : List α) (size : Nat)
    (rand : Nat → Nat → Nat) : List α × List α :=
  draw_loop rand 0 size L

/-- The element drawn at each step together with what is left is a
permutation of the list the step started from. -/
theorem getD_cons_eraseIdx_perm {α : Type} (x : α) (xs : List α) (idx : Nat)
    (h : idx ≤ xs.length) :
    List.Perm (((x :: xs).getD idx x) :: ((x :: xs).eraseIdx idx)) (x :: xs) := by
  induction xs generalizing x idx with
  | nil =>
      have hidx : idx = 0 := Nat.le_zero.mp h
      subst hidx
      simp
  | cons y ys ih =>
      match idx with
      | 0 => simp
      | n + 1 =>
          have hn : n ≤ ys.length := by
            simpa [Nat.succ_le_succ_iff] using h
          have hlt : n < (y :: ys).length := Nat.lt_succ_of_le hn
          have hd : (y :: ys).getD n x = (y :: ys).getD n y := by
            simp [List.getD, List.getElem?_eq_getElem hlt]
          have tail_perm :
              List.Perm ((y :: ys).getD n x :: (y :: ys).eraseIdx n) (y :: ys) := by
            rw [hd]; exact ih y n hn
          have step1 :
              List.Perm ((y :: ys).getD n x :: x :: (y :: ys).eraseIdx n)
                (x :: (y :: ys).getD n x :: (y :: ys).eraseIdx n) :=
            List.Perm.swap x _ _
          have goal_eq :
              ((x :: y :: ys).getD (n + 1) x) :: ((x :: y :: ys).eraseIdx (n + 1))
                = ((y :: ys).getD n x) :: x :: ((y :: ys).eraseIdx n) := by
            simp [List.getD]
          rw [goal_eq]
          exact step1.trans (List.Perm.cons x tail_perm)

/-- Core loop invariant: the drawn elements followed by the remainder are
a permutation of the input list. -/
theorem draw_loop_perm {α : Type} (rand : Nat → Nat → Nat) :
    ∀ (size t : Nat) (L : List α),
      List.Perm ((draw_loop rand t size L).1 ++ (draw_loop rand t size L).2) L := by
  intro size
  induction size with
  | zero => intro t L; simp [draw_loop]
  | succ n ih =>
      intro t L
      match L with
      | [] => simp [draw_loop]
      | x :: xs =>
          have hidx : min (rand t xs.length) xs.length ≤ xs.length :=
            Nat.min_le_right _ _
          have tail := ih (t + 1)
            ((x :: xs).eraseIdx (min (rand t xs.length) xs.length))
          simp only [draw_loop, List.cons_append]
          exact (List.Perm.cons _ tail).trans
            (getD_cons_eraseIdx_perm x xs _ hidx)

/-- Core loop length: exactly `min size L.length` elements are drawn. -/
theorem draw_loop_length {α : Type} (rand : Nat → Nat → Nat) :
    ∀ (size t : Nat) (L : List α),
      (draw_loop rand t size L).1.length = min size L.length := by
  intro size
  induction size with
  | zero => intro t L; simp [draw_loop]
  | succ n ih =>
      intro t L
      match L with
      | [] => simp [draw_loop]
      | x :: xs =>
          have hidx : min (rand t xs.length) xs.length < (x :: xs).length :=
            Nat.lt_succ_of_le (Nat.min_le_right _ _)
          have herase :
              ((x :: xs).eraseIdx (min (rand t xs.length) xs.length)).length
                = xs.length := by
            rw [List.length_eraseIdx]
            simp [hidx]
          have := ih (t + 1)
            ((x :: xs).eraseIdx (min (rand t xs.length) xs.length))
          simp only [draw_loop, List.length_cons, this, herase]
          omega

/-- The drawn elements form a sub-permutation of the input list. -/
theorem wt_random_draw_subperm {α : Type} (L : List α) (size : Nat)
    (rand : Nat → Nat → Nat) : (wt_random_draw L size rand).Subperm L :=
  ((List.sublist_append_left (draw_loop rand 0 size L).1
    (draw_loop rand 0 size L).2).subperm).trans
    (draw_loop_perm rand size 0 L).subperm

/-- C5: fragment selection samples without replacement and never fails on
a non-empty universe.  For every list `L`, requested size and random
source, `random_draw` (wt.py lines 160-167) returns exactly
`min size L.length` elements, the result is a sub-permutation of `L`
(each position of `L` drawn at most once), and an empty `L` yields the
empty list rather than an error. -/
theorem random_draw_total_correct {α : Type} (L : List α) (size : Nat)
    (rand : Nat → Nat → Nat) :
    (wt_random_draw L size rand).length = min size L.length ∧
    (wt_random_draw L size rand).Subperm L ∧
    (L = [] → wt_random_draw L size rand = []) := by
  refine ⟨draw_loop_length rand size 0 L, wt_random_draw_subperm L size rand, ?_⟩
  intro hL
  subst hL
  cases size <;> simp [wt_random_draw, draw_loop]

/-- C9: frame effect of the two `random_draw` variants.  The wt.py
version leaves the caller's list unchanged (it draws from a private
copy); the shiftsched_lns.py version pops from the caller's list, which
afterwards has lost exactly the drawn positions, so its length drops by
the length of the result. -/
theorem random_draw_frame_effects {α : Type} (L : List α) (size : Nat)
    (rand : Nat → Nat → Nat) :
    (wt_random_draw_st L size rand).2 = L ∧
    (shift_random_draw L size rand).2.length
      = L.length - (shift_random_draw L size rand).1.length ∧
    List.Perm ((shift_random_draw L size rand).1
      ++ (shift_random_draw L size rand).2) L := by
  refine ⟨rfl, ?_, draw_loop_perm rand size 0 L⟩
  have hp := (draw_loop_perm rand size 0 L).length_eq
  simp only [List.length_append] at hp
  simp only [shift_random_draw]
  omega

/-! ## Weighted-tardiness cost helpers (wt.py lines 170-187)

An activity is a record with a duration, a deadline and a weight, as in
the `acts` dictionaries of wt.py. -/

structure Act where
  dur : Int
  dln : Int
  wgt : Int
deriving Repr, DecidableEq

instance : Inhabited Act := ⟨⟨0, 0, 0⟩⟩

/-- Start time of activity `i` under the sequence `sbest`: total duration
of the activities placed before `i` in `sbest` (wt.py lines 172-175 and
182-185, identical in both helpers). -/
def start_of (acts : List Act) (sbest : List Nat) (i : Nat) : Int :=
  ((sbest.take (sbest.indexOf i)).map
    (fun j => (acts.getD j default).dur)).sum

/-- `compute_costs` (wt.py lines 170-177):
`max(0, starts[i]-a['dln'])*a['wgt']` for each activity. -/
def compute_costs (acts : List Act) (sbest : List Nat) : List Int :=
  (List.range acts.length).map (fun i =>
    max 0 (start_of acts sbest i - (acts.getD i default).dln)
      * (acts.getD i default).wgt)

/-- `compute_weighted_slack` (wt.py lines 180-187):
`(starts[i]-a['dln'])*a['wgt']` for each activity, without clamping. -/
def compute_weighted_slack (acts : List Act) (sbest : List Nat) : List Int :=
  (List.range acts.length).map (fun i =>
    (start_of acts sbest i - (acts.getD i default).dln)
      * (acts.getD i default).wgt)

/-- C10: with nonnegative weights the two cost helpers agree up to
clamping — `compute_costs` is the pointwise `max 0` of
`compute_weighted_slack` — and in particular every entry of
`compute_costs` is nonnegative. -/
theorem compute_costs_eq_clamped_slack (acts : List Act) (sbest : List Nat)
    (hw : ∀ a ∈ acts, 0 ≤ a.wgt)
    (hperm : List.Perm sbest (List.range acts.length)) :
    compute_costs acts sbest
      = (compute_weighted_slack acts sbest).map (fun x => max 0 x) ∧
    ∀ x ∈ compute_costs acts sbest, 0 ≤ x := by
  have key : ∀ i ∈ List.range acts.length,
      max 0 (start_of acts sbest i - (acts.getD i default).dln)
          * (acts.getD i default).wgt
        = max 0 ((start_of acts sbest i - (acts.getD i default).dln)
          * (acts.getD i default).wgt) := by
    intro i hi
    have hilt : i < acts.length := List.mem_range.mp hi
    have hmem : acts.getD i default ∈ acts := by
      rw [List.getD_eq_getElem acts default hilt]
      exact List.getElem_mem hilt
    have hwi : 0 ≤ (acts.getD i default).wgt := hw _ hmem
    rw [max_mul_of_nonneg _ _ hwi, zero_mul]
  constructor
  · unfold compute_costs compute_weighted_slack
    rw [List.map_map]
    exact List.map_congr_left key
  · intro x hx
    unfold compute_costs at hx
    rcases List.mem_map.mp hx with ⟨i, hi, rfl⟩
    rw [key i hi]
    exact le_max_left 0 _

/-- Witness for C10 at a concrete instance: three activities with
nonnegative weights and the sequence `[2, 0, 1]`. -/
theorem compute_costs_eq_clamped_slack_witness :
    ((∀ a ∈ [(⟨2, 1, 3⟩ : Act), ⟨1, 4, 0⟩, ⟨3, 2, 2⟩], 0 ≤ a.wgt) ∧
      List.Perm [2, 0, 1]
        (List.range ([(⟨2, 1, 3⟩ : Act), ⟨1, 4, 0⟩, ⟨3, 2, 2⟩]).length)) ∧
    (compute_costs [(⟨2, 1, 3⟩ : Act), ⟨1, 4, 0⟩, ⟨3, 2, 2⟩] [2, 0, 1]
      = (compute_weighted_slack [(⟨2, 1, 3⟩ : Act), ⟨1, 4, 0⟩, ⟨3, 2, 2⟩]
          [2, 0, 1]).map (fun x => max 0 x) ∧
      ∀ x ∈ compute_costs [(⟨2, 1, 3⟩ : Act), ⟨1, 4, 0⟩, ⟨3, 2, 2⟩] [2, 0, 1],
        0 ≤ x) :=
  ⟨⟨by decide, by decide⟩,
    compute_costs_eq_clamped_slack _ _ (by decide) (by decide)⟩

/-! ## The LNS main loop of wt.py (lines 216-252)

The loop keeps an incumbent `(zbest, sbest)` (objective value and
activity sequence) and at every iteration calls `solve` with
`old_zbest=zbest`; the result `(lz, ls)` replaces the incumbent only if
`lz is not None` (lines 244-246).  The inner `solve` builds the model
with the bound `Z < old_zbest` (wt.py lines 80-81) and hands it to the
external engine, which is not part of the repository; the engine's
contract is captured by `InnerSolveSound` below. -/

/-- One incumbent update of the LNS loop (wt.py lines 244-246): the pair
`(zbest, sbest)` is replaced exactly when the inner solve returned a
solution. -/
def lns_update (st : Option (Int × List Nat))
    (res : Option (Int × List Nat)) : Option (Int × List Nat) :=
  match res with
  | none => st
  | some p => some p

/-- Modelled from the spec: the solution soundness of the external CP
engine invoked by `solve` — every solution returned by a run satisfies
all posted constraints, in particular the bound `Z < old_zbest` posted at
wt.py line 81 whenever `old_zbest` is not `None`.  The engine itself
(domain store, propagation, search) is imported, not repository code.
`oracle n z` is the `(zbest, sbest)` outcome of the inner solve of
iteration `n` when invoked with `old_zbest = z`. -/
def InnerSolveSound (oracle : Nat → Option Int → Option (Int × List Nat)) :
    Prop :=
  ∀ n z p, oracle n (some z) = some p → p.1 < z

/-- The LNS main loop, with the iteration budget as fuel: iteration `n`
invokes the inner solve with `old_zbest` equal to the current incumbent
objective, then applies the incumbent update. -/
def lns_run (oracle : Nat → Option Int → Option (Int × List Nat)) :
    Nat → Nat → Option (Int × List Nat) → Option (Int × List Nat)
  | _, 0, st => st
  | n, k + 1, st =>
      lns_run oracle (n + 1) k (lns_update st (oracle n (st.map Prod.fst)))

/-- C1: LNS non-regression.  Starting from an incumbent with objective
`z`, the incumbent objective never worsens across any number of
iterations; moreover a successful iteration strictly decreases it and a
failed iteration leaves the incumbent unchanged. -/
theorem lns_non_regression
    (oracle : Nat → Option Int → Option (Int × List Nat))
    (hsound : InnerSolveSound oracle) (n k : Nat) (z : Int) (s : List Nat) :
    (∃ z' s', lns_run oracle n k (some (z, s)) = some (z', s') ∧ z' ≤ z) ∧
    (∀ p, oracle n (some z) = some p →
      lns_update (some (z, s)) (oracle n (some z)) = some p ∧ p.1 < z) ∧
    (oracle n (some z) = none →
      lns_update (some (z, s)) (oracle n (some z)) = some (z, s)) := by
  refine ⟨?_, ?_, ?_⟩
  · induction k generalizing n z s with
    | zero => exact ⟨z, s, rfl, le_refl z⟩
    | succ m ih =>
        rcases hres : oracle n (some z) with _ | p
        · have hstep :
              lns_run oracle n (m + 1) (some (z, s))
                = lns_run oracle (n + 1) m (some (z, s)) := by
            simp [lns_run, lns_update, hres]
          rw [hstep]
          exact ih (n + 1) z s
        · have hlt : p.1 < z := hsound n z p hres
          have hstep :
              lns_run oracle n (m + 1) (some (z, s))
                = lns_run oracle (n + 1) m (some (p.1, p.2)) := by
            simp [lns_run, lns_update, hres]
          rw [hstep]
          rcases ih (n + 1) p.1 p.2 with ⟨z', s', hrun, hle⟩
          exact ⟨z', s', hrun, le_of_lt (lt_of_le_of_lt hle hlt)⟩
  · intro p hres
    exact ⟨by simp [lns_update, hres], hsound n z p hres⟩
  · intro hres
    simp [lns_update, hres]

/-- Witness for C1: an oracle that always improves by one, three
iterations from incumbent objective 10. -/
theorem lns_non_regression_witness :
    InnerSolveSound (fun _ z => z.map (fun v => (v - 1, []))) ∧
    ((∃ z' s', lns_run (fun _ z => z.map (fun v => (v - 1, [])))
        0 3 (some (10, [0, 1])) = some (z', s') ∧ z' ≤ 10) ∧
      (∀ p, (fun (_ : Nat) (z : Option Int) =>
          z.map (fun v => (v - 1, ([] : List Nat)))) 0 (some 10) = some p →
        lns_update (some (10, [0, 1]))
          ((fun (_ : Nat) (z : Option Int) =>
            z.map (fun v => (v - 1, ([] : List Nat)))) 0 (some 10)) = some p ∧
          p.1 < 10) ∧
      ((fun (_ : Nat) (z : Option Int) =>
          z.map (fun v => (v - 1, ([] : List Nat)))) 0 (some 10) = none →
        lns_update (some (10, [0, 1]))
          ((fun (_ : Nat) (z : Option Int) =>
            z.map (fun v => (v - 1, ([] : List Nat)))) 0 (some 10))
          = some (10, [0, 1]))) := by
  have hsound : InnerSolveSound (fun _ z => z.map (fun v => (v - 1, []))) := by
    intro n z p hp
    have hp2 : p = (z - 1, []) := by simpa using hp.symm
    subst hp2
    simpa using sub_one_lt z
  exact ⟨hsound, lns_non_regression _ hsound 0 3 10 [0, 1]⟩

/-! ## Branch-and-bound within one engine run

The `Minimize(Z, 1)` monitor (wt.py line 104, vm.py line 107,
lotsizing.py line 338) lives inside the imported engine.  Modelled from
the spec: after every solution with objective `z` the controller posts
the bound `objective < z` for the remainder of the run, and a later
assignment is observable as a solution only if it satisfies the current
bound. -/

/-- Modelled from the spec: `bb_ok bound zs` holds when the objective
values `zs` can be observed, in order, by successive successful
`NextSolution` calls of one run that starts with objective bound `bound`
(`none` = no solution found yet, `some b` = the bound `objective < b` is
posted). -/
def bb_ok : Option Int → List Int → Bool
  | _, [] => true
  | none, z :: rest => bb_ok (some z) rest
  | some b, z :: rest => decide (z < b) && bb_ok (some z) rest

/-- Any objective value observed under a posted bound is below it, and
later values keep decreasing. -/
theorem bb_ok_chain (b : Int) (zs : List Int) (h : bb_ok (some b) zs = true) :
    List.Chain (fun a c => c < a) b zs := by
  induction zs generalizing b with
  | nil => exact List.Chain.nil
  | cons z rest ih =>
      simp only [bb_ok, Bool.and_eq_true, decide_eq_true_eq] at h
      exact List.Chain.cons h.1 (ih z h.2)

/-- C2: branch-and-bound monotonicity.  Within one run driven by a
`Minimize(objective, 1)` monitor, the objective values observed at
successive solutions are strictly decreasing. -/
theorem bb_monotone (zs : List Int) (h : bb_ok none zs = true) :
    List.Chain' (fun a c => c < a) zs := by
  cases zs with
  | nil => exact List.chain'_nil
  | cons z rest =>
      simp only [bb_ok] at h
      exact bb_ok_chain z rest h

/-- Witness for C2: the observable run `[7, 3, 0]` is strictly
decreasing. -/
theorem bb_monotone_witness :
    bb_ok none [7, 3, 0] = true ∧
    List.Chain' (fun a c => c < a) [(7 : Int), 3, 0] :=
  ⟨by decide, bb_monotone [7, 3, 0] (by decide)⟩

/-! ## The custom decision builders of lotsizing.py

An or-tools `IntVar` domain, as queried by the builders: the list of
remaining values, kept strictly increasing, so that `Min()`/`Max()` are
the first/last entries.  `Value()` on a bound variable is its single
remaining value. -/

structure IntVarDom where
  vals : List Nat
deriving Repr, DecidableEq

instance : Inhabited IntVarDom := ⟨⟨[]⟩⟩

/-- `var.Bound()`: the domain is a singleton. -/
def IntVarDom.isBound (d : IntVarDom) : Bool := d.vals.length == 1

/-- `var.Size()`: number of remaining values. -/
def IntVarDom.size (d : IntVarDom) : Nat := d.vals.length

/-- `var.Min()`. -/
def IntVarDom.dMin (d : IntVarDom) : Nat := d.vals.headD 0

/-- `var.Max()`. -/
def IntVarDom.dMax (d : IntVarDom) : Nat := d.vals.getLastD 0

/-- `var.Contains(k)`. -/
def IntVarDom.containsV (d : IntVarDom) (k : Nat) : Bool := d.vals.contains k

/-- `var.Value()` of a bound variable. -/
def IntVarDom.value (d : IntVarDom) : Nat := d.vals.headD 0

/-- Outcome of a `Next` call: an `AssignVariableValue` /
`AssignVariableValueOrFail` decision on `succ[var] = val` (or on
`date[var] = val` for the dates builder), or a Python-level error
(IndexError on a list access, or passing `None` where a value is
expected). `Next` returning `none` models the Python `return None`. -/
inductive Decision where
  | assignValue (var val : Nat)
  | assignOrFail (var val : Nat)
  | pyError
deriving Repr, DecidableEq

/-- The variable-selection fold shared by `SetSuccByCost.Next` and
`PreferBoundVars.Next` (lotsizing.py lines 104-110 and 167-174): first
candidate with the strictly smallest domain wins, ties keep the earlier
candidate. -/
def chooseSmallestDom (succ : List IntVarDom) (cands : List Nat) :
    Option Nat :=
  cands.foldl (fun acc i =>
    match acc with
    | none => some i
    | some t =>
        if (succ.getD i default).size < (succ.getD t default).size then some i
        else acc) none

/-- `SetSuccByCost.Next` (lotsizing.py lines 91-124).  The value loop
(lines 114-121) runs `k` over `range(var.Min(), var.Max()+1)`, keeps only
contained values, and compares `cur_cost = self.ext_tcosts[k]` — note:
this indexes the cost *matrix* by `k` alone, so `cur_cost` is the whole
row of unit `k` and `cur_cost < val_tcost` is Python 2 lexicographic
list comparison. -/
def setSuccByCost_Next (succ : List IntVarDom)
    (ext_tcosts : List (List Int)) : Option Decision :=
  let nu := succ.length - 1
  let idx := (List.range (nu + 1)).filter
    (fun i => !(succ.getD i default).isBound)
  if idx.isEmpty then none
  else
    match chooseSmallestDom succ idx with
    | none => some Decision.pyError
    | some tgt =>
        let var := succ.getD tgt default
        let val := (List.range' var.dMin (var.dMax + 1 - var.dMin)).foldl
          (fun acc k =>
            if var.containsV k then
              match acc with
              | none => some k
              | some v =>
                  if pyListLt (ext_tcosts.getD k []) (ext_tcosts.getD v [])
                  then some k else acc
            else acc) none
        match val with
        | none => some Decision.pyError
        | some v => some (Decision.assignValue tgt v)

/-- `sorted(range(len(self.date)), key=lambda i: self.date[i].Value())`
(lotsizing.py line 25): Python's `sorted` is a stable sort by key, and a
stable sort by a total key order is unique, so the stable insertion sort
produces the same list. -/
def sortedByDate (date : List Int) : List Nat :=
  List.insertionSort (fun i j => date.getD i 0 ≤ date.getD j 0)
    (List.range date.length)

/-- `SetSuccBasedOnDates.Next` (lotsizing.py lines 21-45): sort the unit
indices by date value, pick the first whose `succ` variable is unbound,
and assign it the next unit of the sorted order; the guard at line 41
compares `target_pos` with `len(self.date)` before accessing
`idx[target_pos+1]` at line 45. -/
def setSuccBasedOnDates_Next (succ : List IntVarDom) (date : List Int) :
    Option Decision :=
  let idx := sortedByDate date
  match idx.enum.find? (fun p => !(succ.getD p.2 default).isBound) with
  | none => none
  | some (target_pos, target) =>
      if target_pos == date.length then
        some (Decision.assignOrFail target (idx.getD 0 0))
      else
        match idx[target_pos + 1]? with
        | some nxt => some (Decision.assignOrFail target nxt)
        | none => some Decision.pyError

/-- The successor-chain walk of `SetDatesBasedOnSucc.Next` (lotsizing.py
lines 62-68): starting from the fake unit, follow `succ[current].Value()`
until the chain returns to the fake unit, collecting the visited units.
The Python `while` loop is given explicit fuel; under the `Circuit`
constraint `succ.length` steps always suffice. -/
def succChain (succ : List IntVarDom) : Nat → Nat → List Nat
  | 0, _ => []
  | fuel + 1, current =>
      let nu := succ.length - 1
      let nxt := (succ.getD current default).value
      if nxt == nu then []
      else nxt :: succChain succ fuel nxt

/-- `SetDatesBasedOnSucc.Next` (lotsizing.py lines 58-78): walk the
successor chain, then assign the first unbound date variable from the
back of the chain to its maximum. -/
def setDatesBasedOnSucc_Next (succ : List IntVarDom)
    (date : List IntVarDom) : Option Decision :=
  let nu := succ.length - 1
  let Q := succChain succ succ.length nu
  match Q.reverse.find? (fun i => !(date.getD i default).isBound) with
  | none => none
  | some i => some (Decision.assignOrFail i (date.getD i default).dMax)

/-- `PreferBoundVars.Next` (lotsizing.py lines 138-194): split units into
`idx1` (values of bound `succ` variables whose own `succ` is unbound) and
`idx2` (units with unbound `succ`); prefer `idx1`, choose the smallest
domain, assign its minimum value. -/
def preferBoundVars_Next (succ : List IntVarDom) : Option Decision :=
  let nu := succ.length - 1
  let split := (List.range (nu + 1)).foldl
    (fun (p : List Nat × List Nat) i =>
      let var := succ.getD i default
      if var.isBound then
        if !(succ.getD var.value default).isBound then
          (p.1 ++ [var.value], p.2)
        else p
      else (p.1, p.2 ++ [i])) ([], [])
  if split.1.isEmpty && split.2.isEmpty then none
  else
    let candidates := if !split.1.isEmpty then split.1 else split.2
    match chooseSmallestDom succ candidates with
    | none => some Decision.pyError
    | some tgt => some (Decision.assignValue tgt (succ.getD tgt default).dMin)

/-- A concrete domain state for C3: `succ[0]` unbound with domain
`{1, 2}`, `succ[1]` and `succ[2]` bound. -/
def succC3 : List IntVarDom := [⟨[1, 2]⟩, ⟨[2]⟩, ⟨[0]⟩]

/-- A concrete extended transition-cost matrix for C3 (3 units, the last
being the fake one, as built at lotsizing.py lines 276-281). -/
def tcC3 : List (List Int) := [[9, 5, 1], [0, 9, 9], [1, 0, 0]]

/-- C3 evaluation: on `succC3`/`tcC3` the builder picks variable 0 (the
only unbound one) but assigns it value 1, because it compares the whole
matrix rows `tcC3[1] = [0,9,9]` and `tcC3[2] = [1,0,0]` lexicographically
instead of the transition costs `tcC3[0][k]` — yet the transition cost
from unit 0 to unit 2 is strictly smaller than to unit 1, so the claimed
choice is value 2. -/
theorem setSuccByCost_picks_row_not_entry :
    setSuccByCost_Next succC3 tcC3 = some (Decision.assignValue 0 1) ∧
    (tcC3.getD 0 []).getD 2 0 < (tcC3.getD 0 []).getD 1 0 := by decide

/-- C4 evaluation: with dates `[0, 1]` and only the sort-order-last
`succ[1]` unbound, the selected position is the last of the sorted order;
the guard `target_pos == len(self.date)` (line 41) can never hold because
`target_pos < len(idx) = len(self.date)`, so line 45 accesses
`idx[target_pos+1]` out of range and raises IndexError instead of closing
the cycle with the first unit. -/
theorem setSuccBasedOnDates_offbyone :
    setSuccBasedOnDates_Next [⟨[1]⟩, ⟨[0, 1]⟩] [0, 1]
      = some Decision.pyError ∧
    (IntVarDom.isBound ⟨[0, 1]⟩) = false := by decide

/-! ## The constraint model built by `solve` (wt.py lines 43-81)

A full assignment of the model: one start time per activity plus the
objective value.  `wt_feasible` is the conjunction of the constraints
`solve` posts with `res_mode=0`: interval bounds, the disjunctive
resource (pairwise non-overlap), the tardiness/objective definition, the
precedence chain over `preorder`, and the bound `Z < old_zbest` when one
is passed. -/

structure WtAssign where
  starts : List Int
  z : Int
deriving Repr, DecidableEq

def wt_feasible (acts : List Act) (preorder : List Nat)
    (old_zbest : Option Int) (a : WtAssign) : Bool :=
  let n := acts.length
  let eoh := (acts.map Act.dur).sum
  let startOf := fun i => a.starts.getD i 0
  let durOf := fun i => (acts.getD i default).dur
  let endOf := fun i => startOf i + durOf i
  (a.starts.length == n) &&
  ((List.range n).all fun i =>
    decide (0 ≤ startOf i) && decide (startOf i ≤ eoh)) &&
  ((List.range n).all fun i => (List.range n).all fun j =>
    (i == j) || decide (endOf i ≤ startOf j) || decide (endOf j ≤ startOf i)) &&
  decide (a.z = ((List.range n).map fun i =>
    (acts.getD i default).wgt * max (endOf i - (acts.getD i default).dln) 0).sum) &&
  decide (0 ≤ a.z) &&
  ((preorder.zip preorder.tail).all fun p => decide (endOf p.1 ≤ startOf p.2)) &&
  (match old_zbest with
   | none => true
   | some zb => decide (a.z < zb))

/-- The reference model of C6, written from the spec sentence: a full
re-solve of the original problem (no precedence constraints) under the
single added bound `Z < zbest`. -/
def wt_full_resolve_feasible (acts : List Act) (zbest : Int)
    (a : WtAssign) : Bool :=
  let n := acts.length
  let eoh := (acts.map Act.dur).sum
  let startOf := fun i => a.starts.getD i 0
  let durOf := fun i => (acts.getD i default).dur
  let endOf := fun i => startOf i + durOf i
  (a.starts.length == n) &&
  ((List.range n).all fun i =>
    decide (0 ≤ startOf i) && decide (startOf i ≤ eoh)) &&
  ((List.range n).all fun i => (List.range n).all fun j =>
    (i == j) || decide (endOf i ≤ startOf j) || decide (endOf j ≤ startOf i)) &&
  decide (a.z = ((List.range n).map fun i =>
    (acts.getD i default).wgt * max (endOf i - (acts.getD i default).dln) 0).sum) &&
  decide (0 ≤ a.z) &&
  decide (a.z < zbest)

/-- wt.py line 228: the activities relaxed in one LNS iteration. -/
def lns_relaxed (n size : Nat) (rand : Nat → Nat → Nat) : List Nat :=
  wt_random_draw (List.range n) size rand

/-- wt.py line 231: the fixed activities, in incumbent order. -/
def lns_preorder (sbest relaxed : List Nat) : List Nat :=
  sbest.filter (fun i => !(relaxed.contains i))

/-- C6: when the neighborhood size equals the number of activities, every
LNS iteration relaxes all activities, the computed preorder is empty, and
the inner model coincides with a full re-solve of the original problem
under the single added bound `Z < zbest` (same feasible set). -/
theorem lns_full_neighborhood_is_full_resolve (acts : List Act)
    (sbest : List Nat) (rand : Nat → Nat → Nat) (zb : Int)
    (hperm : List.Perm sbest (List.range acts.length)) :
    lns_preorder sbest (lns_relaxed acts.length acts.length rand) = [] ∧
    ∀ a, wt_feasible acts
        (lns_preorder sbest (lns_relaxed acts.length acts.length rand))
        (some zb) a
      = wt_full_resolve_feasible acts zb a := by
  have hlen : (lns_relaxed acts.length acts.length rand).length
      = acts.length := by
    simpa using draw_loop_length rand acts.length 0
      (List.range acts.length)
  have hsub : (lns_relaxed acts.length acts.length rand).Subperm
      (List.range acts.length) :=
    wt_random_draw_subperm (List.range acts.length) acts.length rand
  have hpermR : List.Perm (lns_relaxed acts.length acts.length rand)
      (List.range acts.length) :=
    hsub.perm_of_length_le (by rw [hlen, List.length_range])
  have hpre : lns_preorder sbest (lns_relaxed acts.length acts.length rand)
      = [] := by
    rw [lns_preorder, List.filter_eq_nil_iff]
    intro i hi
    have hmemR : i ∈ lns_relaxed acts.length acts.length rand :=
      hpermR.mem_iff.mpr (hperm.mem_iff.mp hi)
    simp [hmemR]
  refine ⟨hpre, fun a => ?_⟩
  rw [hpre]
  simp [wt_feasible, wt_full_resolve_feasible, Bool.and_assoc]

/-- Witness for C6: two activities, incumbent order `[1, 0]`, any random
stream. -/
theorem lns_full_neighborhood_is_full_resolve_witness :
    List.Perm [1, 0] (List.range ([(⟨2, 1, 3⟩ : Act), ⟨1, 4, 0⟩]).length) ∧
    (lns_preorder [1, 0]
        (lns_relaxed ([(⟨2, 1, 3⟩ : Act), ⟨1, 4, 0⟩]).length
          ([(⟨2, 1, 3⟩ : Act), ⟨1, 4, 0⟩]).length (fun t _ => t)) = [] ∧
      ∀ a, wt_feasible [(⟨2, 1, 3⟩ : Act), ⟨1, 4, 0⟩]
          (lns_preorder [1, 0]
            (lns_relaxed ([(⟨2, 1, 3⟩ : Act), ⟨1, 4, 0⟩]).length
              ([(⟨2, 1, 3⟩ : Act), ⟨1, 4, 0⟩]).length (fun t _ => t)))
          (some 9) a
        = wt_full_resolve_feasible [(⟨2, 1, 3⟩ : Act), ⟨1, 4, 0⟩] 9 a) :=
  ⟨by decide,
    lns_full_neighborhood_is_full_resolve [(⟨2, 1, 3⟩ : Act), ⟨1, 4, 0⟩]
      [1, 0] (fun t _ => t) 9 (by decide)⟩

/-! ## The final-stats report of `solve` (wt.py lines 139-151) -/

/-- What the stats block at the end of `solve` computes: the elapsed time
capped to at least 1 msec (line 141), and whether line 150's test
`time > time_limit` fires, printing '--- Time limit exceeded'.  The test
is executed for every run; when `time_limit` is `None` it is the
Python 2 comparison `int > None`. -/
structure SolveReport where
  cappedTime : Int
  printsTimeLimitExceeded : Bool
deriving Repr, DecidableEq

def wt_solve_report (wallTime : Int) (time_limit : Option Int) :
    SolveReport :=
  let t := max 1 wallTime
  ⟨t, pyGtOptInt t time_limit⟩

/-- C7 evaluation: a `solve` run with `time_limit=None` — such as the
initial solve at wt.py line 213 — always prints '--- Time limit
exceeded', whatever the elapsed time, because `max(1, time) > None` is
`True` in Python 2; so completed no-limit runs are not distinguishable
from timed-out ones by the printed report, contrary to the claim. -/
theorem no_limit_run_still_reports_exceeded (wallTime : Int) :
    (wt_solve_report wallTime none).printsTimeLimitExceeded = true := rfl

/-! ## Determinism of the branching strategies (C8)

The full state a custom decision builder or LNS operator can see through
the solver object: the variable domains, the random stream of its
`Random` instance, the LNS variable-universe size, and non-domain data
(wall clock, branch counter) that the solver also exposes but the
builders never read. -/

structure SolverState where
  succDoms : List IntVarDom
  dateDoms : List IntVarDom
  rngStream : Nat → Nat → Nat
  universeSize : Nat
  wallTime : Int
  branches : Int

/-- `SetSuccByCost.Next` as a function of the full solver state. -/
def setSuccByCost_NextS (tc : List (List Int)) (s : SolverState) :
    Option Decision :=
  setSuccByCost_Next s.succDoms tc

/-- `SetSuccBasedOnDates.Next` as a function of the full solver state
(the date variables are read through `.Value()`). -/
def setSuccBasedOnDates_NextS (s : SolverState) : Option Decision :=
  setSuccBasedOnDates_Next s.succDoms
    (s.dateDoms.map (fun d => (d.value : Int)))

/-- `SetDatesBasedOnSucc.Next` as a function of the full solver state. -/
def setDatesBasedOnSucc_NextS (s : SolverState) : Option Decision :=
  setDatesBasedOnSucc_Next s.succDoms s.dateDoms

/-- `PreferBoundVars.Next` as a function of the full solver state. -/
def preferBoundVars_NextS (s : SolverState) : Option Decision :=
  preferBoundVars_Next s.succDoms

/-- `MyRandomLns.NextFragment` (shiftsched_lns.py lines 33-42) as a
function of the full solver state: `random_draw(range(0, self.Size()),
self.size_, self.rand_)` on a fresh index list each call. -/
def nextFragmentS (fragSize : Nat) (s : SolverState) : List Nat :=
  (shift_random_draw (List.range s.universeSize) fragSize s.rngStream).1

/-- C8: determinism of the branching strategies.  Two solver states that
agree on the variable domains, the random stream and the LNS variable
universe produce identical decisions from every custom `Next` method and
from the fragment selection, regardless of wall time or branch counts —
so search on a fixed input and seed is reproducible. -/
theorem builders_deterministic (tc : List (List Int)) (fragSize : Nat)
    (s1 s2 : SolverState)
    (hsucc : s1.succDoms = s2.succDoms)
    (hdate : s1.dateDoms = s2.dateDoms)
    (hrng : s1.rngStream = s2.rngStream)
    (huniv : s1.universeSize = s2.universeSize) :
    setSuccByCost_NextS tc s1 = setSuccByCost_NextS tc s2 ∧
    setSuccBasedOnDates_NextS s1 = setSuccBasedOnDates_NextS s2 ∧
    setDatesBasedOnSucc_NextS s1 = setDatesBasedOnSucc_NextS s2 ∧
    preferBoundVars_NextS s1 = preferBoundVars_NextS s2 ∧
    nextFragmentS fragSize s1 = nextFragmentS fragSize s2 := by
  refine ⟨?_, ?_, ?_, ?_, ?_⟩ <;>
    simp [setSuccByCost_NextS, setSuccBasedOnDates_NextS,
      setDatesBasedOnSucc_NextS, preferBoundVars_NextS, nextFragmentS,
      hsucc, hdate, hrng, huniv]

/-- A concrete solver state for the C8 witness. -/
def stateA : SolverState :=
  ⟨[⟨[1, 2]⟩, ⟨[0]⟩], [⟨[3]⟩, ⟨[2, 4]⟩], fun t h => t + h, 4, 0, 0⟩

/-- The same domains, random stream and universe as `stateA`, but a
different wall time and branch count. -/
def stateB : SolverState :=
  ⟨[⟨[1, 2]⟩, ⟨[0]⟩], [⟨[3]⟩, ⟨[2, 4]⟩], fun t h => t + h, 4, 999, 123⟩

/-- Witness for C8: `stateA` and `stateB` differ only in wall time and
branch count, and every builder decides identically on them. -/
theorem builders_deterministic_witness :
    (stateA.succDoms = stateB.succDoms ∧
      stateA.dateDoms = stateB.dateDoms ∧
      stateA.rngStream = stateB.rngStream ∧
      stateA.universeSize = stateB.universeSize) ∧
    (setSuccByCost_NextS tcC3 stateA = setSuccByCost_NextS tcC3 stateB ∧
      setSuccBasedOnDates_NextS stateA = setSuccBasedOnDates_NextS stateB ∧
      setDatesBasedOnSucc_NextS stateA = setDatesBasedOnSucc_NextS stateB ∧
      preferBoundVars_NextS stateA = preferBoundVars_NextS stateB ∧
      nextFragmentS 3 stateA = nextFragmentS 3 stateB) :=
  ⟨⟨rfl, rfl, rfl, rfl⟩,
    builders_deterministic tcC3 3 stateA stateB rfl rfl rfl rfl⟩

end CP
